import Mathlib

/-!
A shallow embedding of the build-time blog content-indexing pipeline and of the
sitemap export of `src/app/(blog)/page.tsx`.

The sitemap function is translated from the source file.  The indexing pipeline
(frontmatter parser, metadata coercer, slug resolver, content indexer) is not
present in the repository sources; those definitions are modelled from the
specification, as indicated in their doc comments.

A directory is modelled as the list of its immediate file entries, each entry a
pair of file name and file text; string primitives (line splitting, trimming)
are given explicit structural definitions so that every function evaluates.
-/

/-- Whitespace test used by trimming. -/
def isWs (c : Char) : Bool :=
  c = ' ' || c = '\t' || c = '\r' || c = '\n'

/-- Trim whitespace from both ends of a string. -/
def strTrim (s : String) : String :=
  String.mk (((s.data.dropWhile isWs).reverse.dropWhile isWs).reverse)

/-- Split a character list at every occurrence of `sep`; `acc` holds the
current chunk reversed. -/
def splitCharAux (sep : Char) : List Char → List Char → List (List Char)
  | [], acc => [acc.reverse]
  | c :: rest, acc =>
    if c = sep then acc.reverse :: splitCharAux sep rest []
    else splitCharAux sep rest (c :: acc)

/-- Split a string into its lines (separator `'\n'`). -/
def splitLines (t : String) : List String :=
  (splitCharAux '\n' t.data []).map String.mk

/-- Rejoin lines with `'\n'`; inverse of `splitLines` on its image. -/
def joinLines : List String → String
  | [] => ""
  | [l] => l
  | l :: rest => l ++ "\n" ++ joinLines rest

/-- The double-quote character. -/
def quoteChar : Char := Char.ofNat 34

/-- Scan the characters after an opening double quote: an embedded quote must
be escaped with a backslash and the closing quote must end the value. -/
def unquoteAux : List Char → List Char → Option String
  | _, [] => none
  | acc, [c] => if c = quoteChar then some (String.mk acc.reverse) else none
  | acc, c :: c' :: rest =>
    if c = quoteChar then none
    else if c = '\\' then unquoteAux (c' :: acc) rest
    else unquoteAux (c :: acc) (c' :: rest)

/-- Modelled from the spec (§4.1): a field value is either a double-quoted
string supporting embedded escaped quotes, or a bare scalar. -/
def parseValue (v : String) : Option String :=
  match v.data with
  | [] => some v
  | c :: rest => if c = quoteChar then unquoteAux [] rest else some v

/-- Split a character list at its first colon, if any. -/
def splitFirstColon : List Char → Option (List Char × List Char)
  | [] => none
  | c :: rest =>
    if c = ':' then some ([], rest)
    else (splitFirstColon rest).map (fun p => (c :: p.1, p.2))

/-- Modelled from the spec (§4.1): a field line has the shape `key: value`,
with a non-empty key before the first colon and a bare or quoted value. -/
def parseFieldLine (line : String) : Option (String × String) :=
  match splitFirstColon line.data with
  | none => none
  | some (k, v) =>
    let key := strTrim (String.mk k)
    if key = "" then none
    else (parseValue (strTrim (String.mk v))).map (fun w => (key, w))

/-- The error taxonomy of §7 of the specification. -/
inductive BlogError where
  | frontmatterDelimiter : BlogError
  | frontmatterLine (line : String) : BlogError
  | duplicateKey (key : String) : BlogError
  | missingField (key : String) : BlogError
  | invalidDate (value : String) : BlogError
  | duplicateSlug (slug : String) : BlogError
deriving DecidableEq, Repr

/-- Modelled from the spec (§4.1): consume the lines of a frontmatter block
until the closing `---`; blank lines are skipped, any other line must parse as
a field line with a key not seen before in the block.  `acc` holds the fields
read so far, most recent first. -/
def parseBlock : List String → List (String × String) →
    Except BlogError (List (String × String) × String)
  | [], _ => .error .frontmatterDelimiter
  | l :: rest, acc =>
    if l = "---" then .ok (acc.reverse, joinLines rest)
    else
      match parseFieldLine l with
      | some (k, v) =>
        if k ∈ acc.map Prod.fst then .error (.duplicateKey k)
        else parseBlock rest ((k, v) :: acc)
      | none =>
        if strTrim l = "" then parseBlock rest acc
        else .error (.frontmatterLine l)

/-- Modelled from the spec (§4.1, missing from the sources): the frontmatter
parser.  The file must open with a line `---` at its very start; the block then
runs to a second `---` line, and the mapping plus remaining body text is
returned. -/
def parseFrontmatter (text : String) :
    Except BlogError (List (String × String) × String) :=
  match splitLines text with
  | "---" :: rest => parseBlock rest []
  | _ => .error .frontmatterDelimiter

/-- A calendar date, no time component. -/
structure Date where
  year : Nat
  month : Nat
  day : Nat
deriving DecidableEq, Repr

/-- Gregorian leap-year rule. -/
def isLeap (y : Nat) : Bool :=
  (y % 4 = 0 && y % 100 ≠ 0) || y % 400 = 0

/-- Number of days of month `m` of year `y`. -/
def daysInMonth (y m : Nat) : Nat :=
  if m = 2 then (if isLeap y then 29 else 28)
  else if m = 4 ∨ m = 6 ∨ m = 9 ∨ m = 11 then 30
  else 31

/-- Parse a decimal digit string; `none` on a non-digit. -/
def digitsToNatAux : List Char → Nat → Option Nat
  | [], acc => some acc
  | c :: rest, acc =>
    if c.isDigit then digitsToNatAux rest (acc * 10 + (c.toNat - '0'.toNat))
    else none

/-- Parse a non-empty decimal digit list. -/
def digitsToNat : List Char → Option Nat
  | [] => none
  | cs => digitsToNatAux cs 0

/-- Modelled from the spec (§6, missing from the sources): parse an ISO
calendar date string `YYYY-MM-DD`, validating month and day ranges. -/
def parseDate (s : String) : Option Date :=
  match splitCharAux '-' s.data [] with
  | [y, m, d] =>
    if y.length = 4 ∧ m.length = 2 ∧ d.length = 2 then
      match digitsToNat y, digitsToNat m, digitsToNat d with
      | some yn, some mn, some dn =>
        if 1 ≤ mn ∧ mn ≤ 12 ∧ 1 ≤ dn ∧ dn ≤ daysInMonth yn mn then
          some ⟨yn, mn, dn⟩
        else none
      | _, _, _ => none
    else none
  | _ => none

/-- Left-pad a number to two digits. -/
def pad2 (n : Nat) : String :=
  if n < 10 then "0" ++ toString n else toString n

/-- Render a date back to its ISO `YYYY-MM-DD` form. -/
def Date.toIso (d : Date) : String :=
  toString d.year ++ "-" ++ pad2 d.month ++ "-" ++ pad2 d.day

/-- Chronological strict order on dates (lexicographic on year, month, day). -/
def Date.lt (a b : Date) : Prop :=
  a.year < b.year ∨
    (a.year = b.year ∧
      (a.month < b.month ∨ (a.month = b.month ∧ a.day < b.day)))

instance (a b : Date) : Decidable (Date.lt a b) :=
  inferInstanceAs (Decidable (a.year < b.year ∨
    (a.year = b.year ∧
      (a.month < b.month ∨ (a.month = b.month ∧ a.day < b.day)))))

/-- The typed metadata record of §3, minus the slug (which the indexer takes
from the file name, not from the frontmatter). -/
structure PostMeta where
  title : String
  publishedAt : Date
  summary : String
  image : Option String
deriving DecidableEq, Repr

/-- An indexing error: the offending file name plus the reason. -/
structure IndexError where
  file : String
  reason : BlogError
deriving DecidableEq, Repr

/-- Look a key up in a frontmatter mapping (first occurrence). -/
def getField (fm : List (String × String)) (k : String) : Option String :=
  (fm.find? (fun kv => kv.1 == k)).map Prod.snd

/-- Modelled from the spec (§4.2, missing from the sources): the metadata
coercer.  Required keys `title`, `publishedAt`, `summary`; `image` optional.
A required key that is absent or empty after trimming is a `missingField`
error, a `publishedAt` that does not parse as a calendar date an `invalidDate`
error; errors carry the source file name.  No defaulting is performed. -/
def coerce (file : String) (fm : List (String × String)) :
    Except IndexError PostMeta :=
  match getField fm "title" with
  | none => .error ⟨file, .missingField "title"⟩
  | some title =>
    if strTrim title = "" then .error ⟨file, .missingField "title"⟩
    else
      match getField fm "publishedAt" with
      | none => .error ⟨file, .missingField "publishedAt"⟩
      | some pub =>
        if strTrim pub = "" then .error ⟨file, .missingField "publishedAt"⟩
        else
          match parseDate pub with
          | none => .error ⟨file, .invalidDate pub⟩
          | some date =>
            match getField fm "summary" with
            | none => .error ⟨file, .missingField "summary"⟩
            | some summary =>
              if strTrim summary = "" then
                .error ⟨file, .missingField "summary"⟩
              else
                .ok ⟨title, date, summary, getField fm "image"⟩

/-- Modelled from the spec (§4.3, missing from the sources): the slug
resolver strips the extension (the final dot and what follows it) from a file
name and uses the remainder verbatim; a name without a dot is unchanged. -/
def stripExtension (name : String) : String :=
  match name.data.reverse.dropWhile (fun c => c ≠ '.') with
  | [] => name
  | _ :: rest => String.mk rest.reverse

/-- One post record: metadata plus body text. -/
structure Post where
  slug : String
  title : String
  publishedAt : Date
  summary : String
  image : Option String
  body : String
deriving DecidableEq, Repr

/-- Modelled from the spec (§4.4): process one content file, applying parser,
coercer and slug resolver in sequence; errors carry the file name. -/
def processFile (name text : String) : Except IndexError Post :=
  match parseFrontmatter text with
  | .error e => .error ⟨name, e⟩
  | .ok (fm, body) =>
    match coerce name fm with
    | .error e => .error e
    | .ok m => .ok ⟨stripExtension name, m.title, m.publishedAt, m.summary, m.image, body⟩

/-- Does `s` end with `p`? -/
def strEndsWith (s p : String) : Bool :=
  List.isPrefixOf p.data.reverse s.data.reverse

/-- Modelled from the spec (§4.4): the recognized content extensions. -/
def isContentFile (name : String) : Bool :=
  strEndsWith name ".mdx" || strEndsWith name ".md"

/-- Process one directory entry, keeping the file name alongside the post. -/
def processEntry (e : String × String) : Except IndexError (String × Post) :=
  match processFile e.1 e.2 with
  | .error err => .error err
  | .ok p => .ok (e.1, p)

/-- Map a fallible function over a list, left to right, stopping at the first
error. -/
def mapExcept {α β ε : Type} (g : α → Except ε β) : List α → Except ε (List β)
  | [] => .ok []
  | a :: as =>
    match g a with
    | .error e => .error e
    | .ok b =>
      match mapExcept g as with
      | .error e => .error e
      | .ok bs => .ok (b :: bs)

/-- Find the first entry whose slug already occurred (`seen` holds the slugs
seen so far); returns the offending file name and slug. -/
def findDupSlug (seen : List String) : List (String × Post) → Option (String × String)
  | [] => none
  | (name, p) :: rest =>
    if p.slug ∈ seen then some (name, p.slug)
    else findDupSlug (p.slug :: seen) rest

/-- Lexicographic order on character lists (total). -/
def charsLe : List Char → List Char → Bool
  | [], _ => true
  | _ :: _, [] => false
  | a :: as, b :: bs => if a = b then charsLe as bs else decide (a < b)

/-- Lexicographic order on strings. -/
def strLe (a b : String) : Bool := charsLe a.data b.data

/-- The collection order of §3: `publishedAt` descending, ties broken by slug
ascending. -/
def postOrder (a b : Post) : Prop :=
  Date.lt b.publishedAt a.publishedAt ∨
    (b.publishedAt = a.publishedAt ∧ strLe a.slug b.slug = true)

instance : DecidableRel postOrder := fun a b =>
  inferInstanceAs (Decidable (Date.lt b.publishedAt a.publishedAt ∨
    (b.publishedAt = a.publishedAt ∧ strLe a.slug b.slug = true)))

/-- Modelled from the spec (§4.4, missing from the sources): the content
indexer.  Filter the directory entries to recognized content files, process
each in sequence (fail-fast on the first parse or coercion error), reject
duplicate slugs, and return the collection sorted by `postOrder`. -/
def getBlogPosts (dir : List (String × String)) : Except IndexError (List Post) :=
  match mapExcept processEntry (dir.filter (fun e => isContentFile e.1)) with
  | .error e => .error e
  | .ok pairs =>
    match findDupSlug [] pairs with
    | some fs => .error ⟨fs.1, .duplicateSlug fs.2⟩
    | none => .ok (List.insertionSort postOrder (pairs.map Prod.snd))

/-- The declared static routes of the sitemap (source: `page.tsx`). -/
def staticRoutes : List String := [""]

/-- One sitemap entry (source: `page.tsx`). -/
structure SitemapEntry where
  url : String
  lastModified : String
deriving DecidableEq, Repr

/-- The sitemap export, translated from `src/app/(blog)/page.tsx`: one entry
per static route (url `baseUrl ++ route`, last modified the current date at
generation time, passed here as `today`), followed by one entry per post
(url `baseUrl ++ "/" ++ slug`, last modified the post's publication date). -/
def sitemap (baseUrl today : String) (posts : List Post) : List SitemapEntry :=
  (staticRoutes.map (fun route => ⟨baseUrl ++ route, today⟩)) ++
    (posts.map (fun p => ⟨baseUrl ++ "/" ++ p.slug, Date.toIso p.publishedAt⟩))

/-- An indexing result that is a failure. -/
def indexingFails (r : Except IndexError (List Post)) : Prop :=
  ∃ e, r = .error e

/-- A coercion result that is a failure. -/
def coerceFails (r : Except IndexError PostMeta) : Prop :=
  ∃ e, r = .error e

/-- A parse result that is a duplicate-key failure. -/
def isDupKeyError (r : Except BlogError (List (String × String) × String)) : Prop :=
  ∃ k, r = .error (.duplicateKey k)

/-- An indexing result that is a duplicate-slug failure. -/
def failsWithDuplicateSlug (r : Except IndexError (List Post)) : Prop :=
  ∃ f s, r = .error ⟨f, .duplicateSlug s⟩

/-! Concrete directories used to instantiate the theorems below. -/

def wTextA : String := "---\ntitle: A\npublishedAt: 2025-01-01\nsummary: s\n---\nbody"
def wTextB : String := "---\ntitle: B\npublishedAt: 2025-02-01\nsummary: s\n---\nbody"
def wPostA : Post := ⟨"a", "A", ⟨2025, 1, 1⟩, "s", none, "body"⟩
def wPostB : Post := ⟨"b", "B", ⟨2025, 2, 1⟩, "s", none, "body"⟩
def wDir : List (String × String) := [("a.mdx", wTextA), ("b.mdx", wTextB)]
def wDirRev : List (String × String) := [("b.mdx", wTextB), ("a.mdx", wTextA)]
def wDirBroken : List (String × String) := [("bad.mdx", "no frontmatter"), ("a.mdx", wTextA)]
def wDirDup : List (String × String) := [("a.mdx", wTextA), ("a.md", wTextB)]
def cDirDup : List (String × String) := [("bad.mdx", "x"), ("a.mdx", wTextA), ("a.md", wTextB)]

theorem dateLt_trans {a b c : Date} (h₁ : Date.lt a b) (h₂ : Date.lt b c) : Date.lt a c := by
  cases a; cases b; cases c; simp only [Date.lt] at *; omega

theorem dateLt_asymm {a b : Date} (h : Date.lt a b) : ¬ Date.lt b a := by
  cases a; cases b; simp only [Date.lt] at *; omega

theorem dateLt_connex {a b : Date} (h₁ : ¬ Date.lt a b) (h₂ : ¬ Date.lt b a) : a = b := by
  cases a; cases b; simp only [Date.lt, Date.mk.injEq] at *; omega

theorem charsLe_refl : ∀ a, charsLe a a = true
  | [] => rfl
  | c :: cs => by simp [charsLe, charsLe_refl cs]

theorem charsLe_total : ∀ a b, charsLe a b = true ∨ charsLe b a = true
  | [], _ => Or.inl rfl
  | _ :: _, [] => Or.inr rfl
  | a :: as, b :: bs => by
    by_cases hab : a = b
    · subst hab
      simpa [charsLe] using charsLe_total as bs
    · rcases lt_or_gt_of_ne hab with h | h
      · exact Or.inl (by simp [charsLe, hab, h])
      · exact Or.inr (by simp [charsLe, Ne.symm hab, h])

theorem charsLe_trans : ∀ a b c, charsLe a b = true → charsLe b c = true → charsLe a c = true
  | [], _, _, _, _ => rfl
  | _ :: _, [], _, h, _ => by simp [charsLe] at h
  | _ :: _, _ :: _, [], _, h => by simp [charsLe] at h
  | a :: as, b :: bs, c :: cs, h₁, h₂ => by
    by_cases hab : a = b <;> by_cases hbc : b = c
    · subst hab; subst hbc
      simp only [charsLe, if_pos rfl] at *
      exact charsLe_trans as bs cs h₁ h₂
    · subst hab
      simp only [charsLe, if_pos rfl, if_neg hbc] at *
      simp [charsLe, hbc, h₂]
    · subst hbc
      simp only [charsLe, if_pos rfl, if_neg hab] at *
      simp [charsLe, hab, h₁]
    · simp only [charsLe, if_neg hab, if_neg hbc, decide_eq_true_eq] at h₁ h₂
      have hac : a < c := lt_trans h₁ h₂
      simp [charsLe, ne_of_lt hac, hac]

theorem charsLe_antisymm : ∀ a b, charsLe a b = true → charsLe b a = true → a = b
  | [], [], _, _ => rfl
  | [], _ :: _, _, h => by simp [charsLe] at h
  | _ :: _, [], h, _ => by simp [charsLe] at h
  | a :: as, b :: bs, h₁, h₂ => by
    by_cases hab : a = b
    · subst hab
      simp only [charsLe, if_pos rfl] at h₁ h₂
      rw [charsLe_antisymm as bs h₁ h₂]
    · simp only [charsLe, if_neg hab, if_neg (Ne.symm hab), decide_eq_true_eq] at h₁ h₂
      exact absurd h₂ (asymm h₁)

theorem strLe_antisymm {a b : String} (h₁ : strLe a b = true) (h₂ : strLe b a = true) : a = b := by
  cases a; cases b
  exact congrArg String.mk (charsLe_antisymm _ _ h₁ h₂)

instance : IsTrans Post postOrder :=
  ⟨fun a b c h₁ h₂ => by
    rcases h₁ with h₁ | ⟨e₁, s₁⟩ <;> rcases h₂ with h₂ | ⟨e₂, s₂⟩
    · exact Or.inl (dateLt_trans h₂ h₁)
    · exact Or.inl (e₂ ▸ h₁)
    · exact Or.inl (e₁ ▸ h₂)
    · exact Or.inr ⟨e₂.trans e₁, charsLe_trans _ _ _ s₁ s₂⟩⟩

instance : IsTotal Post postOrder :=
  ⟨fun a b => by
    by_cases h₁ : Date.lt b.publishedAt a.publishedAt
    · exact Or.inl (Or.inl h₁)
    · by_cases h₂ : Date.lt a.publishedAt b.publishedAt
      · exact Or.inr (Or.inl h₂)
      · have e : b.publishedAt = a.publishedAt := dateLt_connex h₁ h₂
        rcases charsLe_total a.slug.data b.slug.data with h | h
        · exact Or.inl (Or.inr ⟨e, h⟩)
        · exact Or.inr (Or.inr ⟨e.symm, h⟩)⟩

theorem postOrder_slug_eq {a b : Post} (h₁ : postOrder a b) (h₂ : postOrder b a) :
    a.slug = b.slug := by
  rcases h₁ with h₁ | ⟨e₁, s₁⟩ <;> rcases h₂ with h₂ | ⟨e₂, s₂⟩
  · exact absurd h₂ (dateLt_asymm h₁)
  · exact absurd (e₂ ▸ h₁) (dateLt_asymm (e₂ ▸ h₁))
  · exact absurd (e₁ ▸ h₂) (dateLt_asymm (e₁ ▸ h₂))
  · exact strLe_antisymm s₁ s₂

theorem mapExcept_ok_mem {α β ε : Type} {g : α → Except ε β} :
    ∀ {l : List α} {bs : List β}, mapExcept g l = .ok bs →
      ∀ a ∈ l, ∃ b, b ∈ bs ∧ g a = .ok b := by
  intro l
  induction l with
  | nil => intro bs _ a ha; exact absurd ha (List.not_mem_nil a)
  | cons x xs ih =>
    intro bs h a ha
    simp only [mapExcept] at h
    cases hx : g x with
    | error e => rw [hx] at h; exact absurd h (by simp)
    | ok b =>
      rw [hx] at h
      cases hxs : mapExcept g xs with
      | error e => rw [hxs] at h; exact absurd h (by simp)
      | ok bs' =>
        rw [hxs] at h
        cases h
        rcases List.mem_cons.mp ha with rfl | ha'
        · exact ⟨b, List.mem_cons_self _ _, hx⟩
        · obtain ⟨b', hb', hgb'⟩ := ih hxs a ha'
          exact ⟨b', List.mem_cons_of_mem _ hb', hgb'⟩

theorem mapExcept_error_of_mem {α β ε : Type} {g : α → Except ε β} :
    ∀ {l : List α} {a : α} {e : ε}, a ∈ l → g a = .error e →
      ∃ ε', mapExcept g l = .error ε' ∧ ∃ b, b ∈ l ∧ g b = .error ε' := by
  intro l
  induction l with
  | nil => intro a e ha; exact absurd ha (List.not_mem_nil a)
  | cons x xs ih =>
    intro a e ha hfail
    cases hx : g x with
    | error e' =>
      exact ⟨e', by simp [mapExcept, hx], x, List.mem_cons_self _ _, hx⟩
    | ok b =>
      rcases List.mem_cons.mp ha with rfl | ha'
      · rw [hx] at hfail; exact absurd hfail (by simp)
      · obtain ⟨ε', hmap, b', hb', hgb'⟩ := ih ha' hfail
        refine ⟨ε', ?_, b', List.mem_cons_of_mem _ hb', hgb'⟩
        simp [mapExcept, hx, hmap]

theorem mapExcept_ok_of_forall {α β ε : Type} {g : α → Except ε β} :
    ∀ {l : List α}, (∀ a ∈ l, ∃ b, g a = .ok b) → ∃ bs, mapExcept g l = .ok bs := by
  intro l
  induction l with
  | nil => exact fun _ => ⟨[], rfl⟩
  | cons x xs ih =>
    intro h
    obtain ⟨b, hb⟩ := h x (List.mem_cons_self _ _)
    obtain ⟨bs, hbs⟩ := ih (fun a ha => h a (List.mem_cons_of_mem _ ha))
    exact ⟨b :: bs, by simp [mapExcept, hb, hbs]⟩

theorem mapExcept_ok_filterMap {α β ε : Type} {g : α → Except ε β} :
    ∀ {l : List α} {bs : List β}, mapExcept g l = .ok bs →
      bs = l.filterMap (fun a => (g a).toOption) := by
  intro l
  induction l with
  | nil => intro bs h; cases h; rfl
  | cons x xs ih =>
    intro bs h
    simp only [mapExcept] at h
    cases hx : g x with
    | error e => rw [hx] at h; exact absurd h (by simp)
    | ok b =>
      rw [hx] at h
      cases hxs : mapExcept g xs with
      | error e => rw [hxs] at h; exact absurd h (by simp)
      | ok bs' =>
        rw [hxs] at h
        cases h
        simp [List.filterMap_cons, hx, Except.toOption, ih hxs]

theorem findDupSlug_none_nodup :
    ∀ (pairs : List (String × Post)) (seen : List String),
      findDupSlug seen pairs = none → seen.Nodup →
      (pairs.map (fun pr => pr.2.slug) ++ seen).Nodup := by
  intro pairs
  induction pairs with
  | nil => intro seen _ hseen; simpa using hseen
  | cons x xs ih =>
    intro seen h hseen
    obtain ⟨name, p⟩ := x
    simp only [findDupSlug] at h
    by_cases hmem : p.slug ∈ seen
    · simp [hmem] at h
    · rw [if_neg hmem] at h
      have := ih (p.slug :: seen) h (List.nodup_cons.mpr ⟨hmem, hseen⟩)
      have hperm : (xs.map (fun pr => pr.2.slug) ++ (p.slug :: seen)).Perm
          (p.slug :: (xs.map (fun pr => pr.2.slug) ++ seen)) :=
        List.perm_middle
      simpa using hperm.nodup this

theorem parseBlock_ok_nodup :
    ∀ (rest : List String) (acc : List (String × String)) {fm : List (String × String)} {body : String},
      parseBlock rest acc = .ok (fm, body) → (acc.map Prod.fst).Nodup →
      (fm.map Prod.fst).Nodup := by
  intro rest
  induction rest with
  | nil => intro acc fm body h _; exact absurd h (by simp [parseBlock])
  | cons l ls ih =>
    intro acc fm body h hacc
    simp only [parseBlock] at h
    by_cases hl : l = "---"
    · rw [if_pos hl] at h
      cases h
      simpa using hacc
    · rw [if_neg hl] at h
      cases hfl : parseFieldLine l with
      | some kv =>
        obtain ⟨k, v⟩ := kv
        rw [hfl] at h
        dsimp only [] at h
        by_cases hk : k ∈ acc.map Prod.fst
        · simp [hk] at h
        · rw [if_neg hk] at h
          exact ih _ h (by rw [List.map_cons]; exact List.nodup_cons.mpr ⟨hk, hacc⟩)
      | none =>
        rw [hfl] at h
        dsimp only [] at h
        by_cases hb : strTrim l = ""
        · rw [if_pos hb] at h
          exact ih _ h hacc
        · simp [hb] at h

theorem parseBlock_noclose :
    ∀ (rest : List String) (acc : List (String × String)),
      "---" ∉ rest →
      (∀ l ∈ rest, strTrim l = "" ∨ (parseFieldLine l).isSome) →
      (∀ k ∈ (rest.filterMap parseFieldLine).map Prod.fst, k ∉ acc.map Prod.fst) →
      ((rest.filterMap parseFieldLine).map Prod.fst).Nodup →
      parseBlock rest acc = .error .frontmatterDelimiter := by
  intro rest
  induction rest with
  | nil => intro acc _ _ _ _; rfl
  | cons l ls ih =>
    intro acc hnd hcl hfresh hnodup
    have hl : l ≠ "---" := fun h => hnd (h ▸ List.mem_cons_self _ _)
    simp only [parseBlock, if_neg hl]
    cases hfl : parseFieldLine l with
    | some kv =>
      obtain ⟨k, v⟩ := kv
      dsimp only []
      have hkeys : ((l :: ls).filterMap parseFieldLine).map Prod.fst
          = k :: (ls.filterMap parseFieldLine).map Prod.fst := by
        simp [List.filterMap_cons, hfl]
      have hkfresh : k ∉ acc.map Prod.fst := by
        apply hfresh
        rw [hkeys]; exact List.mem_cons_self _ _
      rw [if_neg hkfresh]
      apply ih
      · exact fun h => hnd (List.mem_cons_of_mem _ h)
      · exact fun x hx => hcl x (List.mem_cons_of_mem _ hx)
      · intro k' hk'
        rw [hkeys] at hnodup
        intro hmem
        rw [List.map_cons] at hmem
        rcases List.mem_cons.mp hmem with rfl | hmem'
        · exact absurd hk' (List.nodup_cons.mp hnodup).1
        · exact hfresh k' (by rw [hkeys]; exact List.mem_cons_of_mem _ hk') hmem'
      · rw [hkeys] at hnodup
        exact (List.nodup_cons.mp hnodup).2
    | none =>
      have hb : strTrim l = "" := by
        rcases hcl l (List.mem_cons_self _ _) with h | h
        · exact h
        · rw [hfl] at h; exact absurd h (by simp)
      dsimp only []
      rw [if_pos hb]
      apply ih
      · exact fun h => hnd (List.mem_cons_of_mem _ h)
      · exact fun x hx => hcl x (List.mem_cons_of_mem _ hx)
      · intro k' hk'
        exact hfresh k' (by simpa [List.filterMap_cons, hfl] using hk')
      · simpa [List.filterMap_cons, hfl] using hnodup

theorem parseBlock_dup :
    ∀ (block : List String) (after : List String) (acc : List (String × String)),
      "---" ∉ block →
      (∀ l ∈ block, strTrim l = "" ∨ (parseFieldLine l).isSome) →
      (acc.map Prod.fst).Nodup →
      ¬ (acc.map Prod.fst ++ (block.filterMap parseFieldLine).map Prod.fst).Nodup →
      ∃ k, parseBlock (block ++ "---" :: after) acc = .error (.duplicateKey k) := by
  intro block
  induction block with
  | nil =>
    intro after acc _ _ hacc hdup
    exact absurd (by simpa using hacc) hdup
  | cons l ls ih =>
    intro after acc hnd hcl hacc hdup
    have hl : l ≠ "---" := fun h => hnd (h ▸ List.mem_cons_self _ _)
    rw [List.cons_append]
    simp only [parseBlock, if_neg hl]
    cases hfl : parseFieldLine l with
    | some kv =>
      obtain ⟨k, v⟩ := kv
      dsimp only []
      by_cases hk : k ∈ acc.map Prod.fst
      · exact ⟨k, by rw [if_pos hk]⟩
      · rw [if_neg hk]
        apply ih
        · exact fun h => hnd (List.mem_cons_of_mem _ h)
        · exact fun x hx => hcl x (List.mem_cons_of_mem _ hx)
        · rw [List.map_cons]; exact List.nodup_cons.mpr ⟨hk, hacc⟩
        · intro hn
          apply hdup
          have hperm : (acc.map Prod.fst ++ ((l :: ls).filterMap parseFieldLine).map Prod.fst).Perm
              ((((k, v) :: acc).map Prod.fst) ++ (ls.filterMap parseFieldLine).map Prod.fst) := by
            simp only [List.filterMap_cons, hfl, List.map_cons]
            exact List.perm_middle
          exact hperm.symm.nodup hn
    | none =>
      have hb : strTrim l = "" := by
        rcases hcl l (List.mem_cons_self _ _) with h | h
        · exact h
        · rw [hfl] at h; exact absurd h (by simp)
      dsimp only []
      rw [if_pos hb]
      apply ih
      · exact fun h => hnd (List.mem_cons_of_mem _ h)
      · exact fun x hx => hcl x (List.mem_cons_of_mem _ hx)
      · exact hacc
      · simpa [List.filterMap_cons, hfl] using hdup

theorem coerce_error_file {f : String} {fm : List (String × String)} {e : IndexError}
    (h : coerce f fm = .error e) : e.file = f := by
  unfold coerce at h
  repeat' split at h
  all_goals first
    | (cases h; rfl)
    | cases h

theorem processFile_error_file {n t : String} {err : IndexError}
    (h : processFile n t = .error err) : err.file = n := by
  unfold processFile at h
  split at h
  · cases h; rfl
  · split at h
    · cases h
      exact coerce_error_file (by assumption)
    · cases h

theorem processFile_ok_slug {n t : String} {p : Post}
    (h : processFile n t = .ok p) : p.slug = stripExtension n := by
  unfold processFile at h
  split at h
  · cases h
  · split at h
    · cases h
    · cases h; rfl

theorem processEntry_ok {e : String × String} {b : String × Post}
    (h : processEntry e = .ok b) :
    b.1 = e.1 ∧ processFile e.1 e.2 = .ok b.2 := by
  unfold processEntry at h
  split at h
  · cases h
  · cases h
    exact ⟨rfl, by assumption⟩

theorem processEntry_error {e : String × String} {err : IndexError}
    (h : processEntry e = .error err) : processFile e.1 e.2 = .error err := by
  unfold processEntry at h
  split at h
  · cases h; assumption
  · cases h

theorem getBlogPosts_ok_inv {dir : List (String × String)} {ps : List Post}
    (h : getBlogPosts dir = .ok ps) :
    ∃ pairs, mapExcept processEntry (dir.filter (fun e => isContentFile e.1)) = .ok pairs ∧
      findDupSlug [] pairs = none ∧
      ps = List.insertionSort postOrder (pairs.map Prod.snd) := by
  unfold getBlogPosts at h
  split at h
  · cases h
  · rename_i pairs hpairs
    split at h
    · cases h
    · rename_i hdup
      cases h
      exact ⟨pairs, hpairs, hdup, rfl⟩

theorem getBlogPosts_error_inv {dir : List (String × String)} {e : IndexError}
    (hmap : mapExcept processEntry (dir.filter (fun e => isContentFile e.1)) = .error e) :
    getBlogPosts dir = .error e := by
  unfold getBlogPosts
  rw [hmap]

theorem sorted_perm_eq :
    ∀ {l₁ l₂ : List Post}, l₁.Perm l₂ → l₁.Sorted postOrder → l₂.Sorted postOrder →
      (l₁.map Post.slug).Nodup → l₁ = l₂ := by
  intro l₁
  induction l₁ with
  | nil => intro l₂ h _ _ _; exact (h.symm.eq_nil).symm
  | cons a t₁ ih =>
    intro l₂ h hs₁ hs₂ hnd
    cases l₂ with
    | nil => exact absurd h.eq_nil (by simp)
    | cons b t₂ =>
      by_cases hab : a = b
      · subst hab
        have ht : t₁.Perm t₂ := h.cons_inv
        have := ih ht (List.sorted_cons.mp hs₁).2 (List.sorted_cons.mp hs₂).2
          (by rw [List.map_cons] at hnd; exact (List.nodup_cons.mp hnd).2)
        rw [this]
      · have hb₁ : b ∈ a :: t₁ := h.symm.subset (List.mem_cons_self _ _)
        have hbt₁ : b ∈ t₁ := by
          rcases List.mem_cons.mp hb₁ with h' | h'
          · exact absurd h'.symm hab
          · exact h'
        have ha₂ : a ∈ b :: t₂ := h.subset (List.mem_cons_self _ _)
        have hat₂ : a ∈ t₂ := by
          rcases List.mem_cons.mp ha₂ with h' | h'
          · exact absurd h' hab
          · exact h'
        have hoab : postOrder a b := (List.sorted_cons.mp hs₁).1 b hbt₁
        have hoba : postOrder b a := (List.sorted_cons.mp hs₂).1 a hat₂
        have hslug : a.slug = b.slug := postOrder_slug_eq hoab hoba
        rw [List.map_cons] at hnd
        exact absurd (hslug ▸ List.mem_map_of_mem Post.slug hbt₁)
          (List.nodup_cons.mp hnd).1

/-- C1: over any directory contents, a successful indexing pass returns a
collection sorted by `postOrder` — `publishedAt` descending with ties broken
by slug ascending — and two calls over the same directory return the same
collection. -/
theorem blog_c1 (dir : List (String × String)) (ps ps' : List Post)
    (h : getBlogPosts dir = .ok ps) (h' : getBlogPosts dir = .ok ps') :
    ps.Sorted postOrder ∧ ps = ps' := by
  obtain ⟨pairs, _, _, hsort⟩ := getBlogPosts_ok_inv h
  constructor
  · rw [hsort]; exact List.sorted_insertionSort postOrder _
  · rw [h] at h'; exact Except.ok.inj h'

/-- Witness for C1 at a concrete two-file directory. -/
theorem blog_c1_witness :
    ([wPostB, wPostA] : List Post).Sorted postOrder ∧
      ([wPostB, wPostA] : List Post) = [wPostB, wPostA] :=
  blog_c1 wDir [wPostB, wPostA] [wPostB, wPostA] (by rfl) (by rfl)

/-- C2: if any recognized file of the directory fails frontmatter parsing or
metadata coercion, the whole indexing call fails — no partial collection is
returned — and the resulting error carries the name of a genuinely failing
file together with that file's own failure reason. -/
theorem blog_c2 (dir : List (String × String)) (n t : String) (e : IndexError)
    (hmem : (n, t) ∈ dir) (hrec : isContentFile n = true)
    (hfail : processFile n t = .error e) :
    indexingFails (getBlogPosts dir) ∧
      ∃ err n' t', getBlogPosts dir = .error err ∧ (n', t') ∈ dir ∧
        isContentFile n' = true ∧ processFile n' t' = .error err ∧ err.file = n' := by
  have hmem' : (n, t) ∈ dir.filter (fun e => isContentFile e.1) :=
    List.mem_filter.mpr ⟨hmem, hrec⟩
  have hpe : processEntry (n, t) = .error e := by
    unfold processEntry; rw [hfail]
  obtain ⟨ε', hmapE, b, hb, hgb⟩ := mapExcept_error_of_mem hmem' hpe
  have hgbp : getBlogPosts dir = .error ε' := getBlogPosts_error_inv hmapE
  have hpfb : processFile b.1 b.2 = .error ε' := processEntry_error hgb
  refine ⟨⟨ε', hgbp⟩, ε', b.1, b.2, hgbp, ?_, ?_, hpfb, processFile_error_file hpfb⟩
  · exact (List.mem_filter.mp hb).1
  · exact (List.mem_filter.mp hb).2

/-- Witness for C2 at a directory containing one broken file. -/
theorem blog_c2_witness : indexingFails (getBlogPosts wDirBroken) :=
  (blog_c2 wDirBroken "bad.mdx" "no frontmatter" ⟨"bad.mdx", .frontmatterDelimiter⟩
    (by decide) (by rfl) (by rfl)).1

theorem pairs_slug_not_nodup {dir : List (String × String)} {pairs : List (String × Post)}
    {n₁ t₁ n₂ t₂ : String}
    (h₁ : (n₁, t₁) ∈ dir) (h₂ : (n₂, t₂) ∈ dir) (hne : n₁ ≠ n₂)
    (hr₁ : isContentFile n₁ = true) (hr₂ : isContentFile n₂ = true)
    (hslug : stripExtension n₁ = stripExtension n₂)
    (hmap : mapExcept processEntry (dir.filter (fun e => isContentFile e.1)) = .ok pairs) :
    ¬ (pairs.map (fun pr => pr.2.slug)).Nodup := by
  intro hnd
  obtain ⟨b₁, hb₁, hgb₁⟩ := mapExcept_ok_mem hmap (n₁, t₁) (List.mem_filter.mpr ⟨h₁, hr₁⟩)
  obtain ⟨b₂, hb₂, hgb₂⟩ := mapExcept_ok_mem hmap (n₂, t₂) (List.mem_filter.mpr ⟨h₂, hr₂⟩)
  obtain ⟨hfst₁, hpf₁⟩ := processEntry_ok hgb₁
  obtain ⟨hfst₂, hpf₂⟩ := processEntry_ok hgb₂
  have hs₁ : b₁.2.slug = stripExtension n₁ := processFile_ok_slug hpf₁
  have hs₂ : b₂.2.slug = stripExtension n₂ := processFile_ok_slug hpf₂
  have heq : b₁ = b₂ :=
    List.inj_on_of_nodup_map hnd hb₁ hb₂ (by rw [hs₁, hs₂, hslug])
  have e₁ : b₁.1 = n₁ := hfst₁
  have e₂ : b₂.1 = n₂ := hfst₂
  apply hne
  rw [← e₁, ← e₂, heq]

/-- C5 (amended): if two distinct recognized files resolve to the same slug,
indexing never returns a collection (the collision is never resolved by
last-write-wins); and when additionally every recognized file parses and
coerces successfully, the call fails with `duplicateSlug`.  The directory is
universally quantified, so the statement holds for every processing order. -/
theorem blog_c5 (dir : List (String × String)) (n₁ t₁ n₂ t₂ : String)
    (h₁ : (n₁, t₁) ∈ dir) (h₂ : (n₂, t₂) ∈ dir) (hne : n₁ ≠ n₂)
    (hr₁ : isContentFile n₁ = true) (hr₂ : isContentFile n₂ = true)
    (hslug : stripExtension n₁ = stripExtension n₂) :
    (∀ ps, getBlogPosts dir ≠ .ok ps) ∧
      ((∀ n t, (n, t) ∈ dir → isContentFile n = true → ∃ p, processFile n t = .ok p) →
        failsWithDuplicateSlug (getBlogPosts dir)) := by
  constructor
  · intro ps hok
    obtain ⟨pairs, hmap, hdup, _⟩ := getBlogPosts_ok_inv hok
    have hnd := findDupSlug_none_nodup pairs [] hdup List.nodup_nil
    exact pairs_slug_not_nodup h₁ h₂ hne hr₁ hr₂ hslug hmap (by simpa using hnd)
  · intro hall
    have hfor : ∀ e ∈ dir.filter (fun e => isContentFile e.1), ∃ b, processEntry e = .ok b := by
      intro e he
      obtain ⟨hmem, hrec⟩ := List.mem_filter.mp he
      obtain ⟨p, hp⟩ := hall e.1 e.2 hmem hrec
      exact ⟨(e.1, p), by unfold processEntry; rw [hp]⟩
    obtain ⟨pairs, hmap⟩ := mapExcept_ok_of_forall hfor
    cases hdup : findDupSlug [] pairs with
    | none =>
      have hnd := findDupSlug_none_nodup pairs [] hdup List.nodup_nil
      exact absurd (by simpa using hnd)
        (pairs_slug_not_nodup h₁ h₂ hne hr₁ hr₂ hslug hmap)
    | some fs =>
      refine ⟨fs.1, fs.2, ?_⟩
      unfold getBlogPosts
      rw [hmap]
      dsimp only []
      rw [hdup]

/-- Witness for C5 at a concrete directory with slugs `a` from `a.mdx` and
`a.md`. -/
theorem blog_c5_witness :
    getBlogPosts wDirDup ≠ .ok [] ∧ failsWithDuplicateSlug (getBlogPosts wDirDup) :=
  ⟨(blog_c5 wDirDup "a.mdx" wTextA "a.md" wTextB (by decide) (by decide) (by decide)
      (by rfl) (by rfl) (by rfl)).1 [],
   (blog_c5 wDirDup "a.mdx" wTextA "a.md" wTextB (by decide) (by decide) (by decide)
      (by rfl) (by rfl) (by rfl)).2
      (by
        intro n t hmem hrec
        rcases List.mem_cons.mp hmem with h | h
        · cases h; exact ⟨wPostA, by rfl⟩
        · rcases List.mem_cons.mp h with h' | h'
          · cases h'; exact ⟨⟨"a", "B", ⟨2025, 2, 1⟩, "s", none, "body"⟩, by rfl⟩
          · exact absurd h' (List.not_mem_nil _))⟩

/-- Counterexample to C5 as stated: in a directory where a third file fails
to parse, the fail-fast indexer reports the parse error, not
`duplicateSlug`, even though two files resolve to the same slug. -/
theorem blog_c5_counterexample :
    getBlogPosts cDirDup = .error ⟨"bad.mdx", .frontmatterDelimiter⟩ ∧
      stripExtension "a.mdx" = stripExtension "a.md" ∧
      ("a.mdx" : String) ≠ "a.md" ∧
      isContentFile "a.mdx" = true ∧ isContentFile "a.md" = true ∧
      BlogError.frontmatterDelimiter ≠ BlogError.duplicateSlug (stripExtension "a.mdx") :=
  ⟨rfl, rfl, by decide, rfl, rfl, by decide⟩

/-- C9: indexing is pure in its directory argument — any two calls over the
same directory contents (up to enumeration order) that succeed return
identical collections. -/
theorem blog_c9 (d₁ d₂ : List (String × String)) (ps₁ ps₂ : List Post)
    (hperm : d₁.Perm d₂)
    (h₁ : getBlogPosts d₁ = .ok ps₁) (h₂ : getBlogPosts d₂ = .ok ps₂) :
    ps₁ = ps₂ := by
  obtain ⟨pairs₁, hm₁, hd₁, hs₁⟩ := getBlogPosts_ok_inv h₁
  obtain ⟨pairs₂, hm₂, hd₂, hs₂⟩ := getBlogPosts_ok_inv h₂
  have hpairs : pairs₁.Perm pairs₂ := by
    rw [mapExcept_ok_filterMap hm₁, mapExcept_ok_filterMap hm₂]
    exact (hperm.filter _).filterMap _
  have hposts : (pairs₁.map Prod.snd).Perm (pairs₂.map Prod.snd) := hpairs.map _
  have hip₁ := List.perm_insertionSort postOrder (pairs₁.map Prod.snd)
  have hip₂ := List.perm_insertionSort postOrder (pairs₂.map Prod.snd)
  have hpermS : (List.insertionSort postOrder (pairs₁.map Prod.snd)).Perm
      (List.insertionSort postOrder (pairs₂.map Prod.snd)) :=
    (hip₁.trans hposts).trans hip₂.symm
  have hnd : ((pairs₁.map Prod.snd).map Post.slug).Nodup := by
    have := findDupSlug_none_nodup pairs₁ [] hd₁ List.nodup_nil
    simpa [List.map_map] using this
  have hndS : ((List.insertionSort postOrder (pairs₁.map Prod.snd)).map Post.slug).Nodup :=
    ((hip₁.map Post.slug).nodup_iff).mpr hnd
  rw [hs₁, hs₂]
  exact sorted_perm_eq hpermS (List.sorted_insertionSort postOrder _)
    (List.sorted_insertionSort postOrder _) hndS

/-- Witness for C9 at a concrete directory and a reordering of it. -/
theorem blog_c9_witness : ([wPostB, wPostA] : List Post) = [wPostB, wPostA] :=
  blog_c9 wDir wDirRev [wPostB, wPostA] [wPostB, wPostA] (by decide) (by rfl) (by rfl)

theorem dropWhile_append_all {α : Type} (p : α → Bool) :
    ∀ (l r : List α), (∀ c ∈ l, p c = true) → List.dropWhile p (l ++ r) = List.dropWhile p r := by
  intro l r h
  induction l with
  | nil => rfl
  | cons c cs ih =>
    rw [List.cons_append, List.dropWhile_cons, if_pos (h c (List.mem_cons_self _ _))]
    exact ih (fun x hx => h x (List.mem_cons_of_mem _ hx))

theorem dropWhile_nil_all {α : Type} (p : α → Bool) :
    ∀ (l : List α), (∀ c ∈ l, p c = true) → List.dropWhile p l = [] := by
  intro l h
  induction l with
  | nil => rfl
  | cons c cs ih =>
    rw [List.dropWhile_cons, if_pos (h c (List.mem_cons_self _ _))]
    exact ih (fun x hx => h x (List.mem_cons_of_mem _ hx))

theorem stripExtension_append {stem ext : String} (hext : ∀ c ∈ ext.data, c ≠ '.') :
    stripExtension (stem ++ "." ++ ext) = stem := by
  unfold stripExtension
  have hdot : ("." : String).data = ['.'] := rfl
  have hdata : (stem ++ "." ++ ext).data = stem.data ++ '.' :: ext.data := by
    rw [String.data_append, String.data_append, hdot, List.append_assoc]
    rfl
  rw [hdata, List.reverse_append, List.reverse_cons, List.append_assoc,
    List.singleton_append]
  rw [dropWhile_append_all _ _ _ (by
    intro c hc
    simp only [decide_eq_true_eq]
    exact hext c (List.mem_reverse.mp hc))]
  rw [List.dropWhile_cons, if_neg (by simp)]
  dsimp only []
  rw [List.reverse_reverse]

theorem stripExtension_no_dot {name : String} (h : ∀ c ∈ name.data, c ≠ '.') :
    stripExtension name = name := by
  unfold stripExtension
  rw [dropWhile_nil_all _ _ (by
    intro c hc
    simp only [decide_eq_true_eq]
    exact h c (List.mem_reverse.mp hc))]

/-- C4: the slug resolver strips the final extension and performs no other
transformation: any name `stem.ext` (with `ext` dot-free) resolves to `stem`
verbatim, a dot-free name is unchanged, and `hello-world.md` resolves to
exactly `hello-world`. -/
theorem slug_c4 (stem ext : String) (hext : ∀ c ∈ ext.data, c ≠ '.') :
    stripExtension (stem ++ "." ++ ext) = stem ∧
      ((∀ c ∈ stem.data, c ≠ '.') → stripExtension stem = stem) ∧
      stripExtension "hello-world.md" = "hello-world" :=
  ⟨stripExtension_append hext, fun h => stripExtension_no_dot h, rfl⟩

/-- Witness for C4 at the spec's example file name. -/
theorem slug_c4_witness :
    stripExtension ("hello-world" ++ "." ++ "md") = "hello-world" ∧
      ((∀ c ∈ ("hello-world" : String).data, c ≠ '.') →
        stripExtension "hello-world" = "hello-world") ∧
      stripExtension "hello-world.md" = "hello-world" :=
  slug_c4 "hello-world" "md" (by decide)

/-- C3: the sitemap export emits, for each post, an entry whose url is the
base URL followed by `/` and the slug and whose lastModified is the post's
publication date, plus one entry per declared static route whose
lastModified is the generation-time date. -/
theorem sitemap_c3 (baseUrl today : String) (posts : List Post) :
    sitemap baseUrl today posts =
      staticRoutes.map (fun route => SitemapEntry.mk (baseUrl ++ route) today) ++
        posts.map (fun p => SitemapEntry.mk (baseUrl ++ "/" ++ p.slug) (Date.toIso p.publishedAt)) ∧
      (∀ p ∈ posts,
        SitemapEntry.mk (baseUrl ++ "/" ++ p.slug) (Date.toIso p.publishedAt) ∈
          sitemap baseUrl today posts) ∧
      (∀ r ∈ staticRoutes,
        SitemapEntry.mk (baseUrl ++ r) today ∈ sitemap baseUrl today posts) ∧
      (sitemap baseUrl today posts).length = staticRoutes.length + posts.length := by
  refine ⟨rfl, ?_, ?_, by simp [sitemap]⟩
  · intro p hp
    exact List.mem_append_right _ (List.mem_map_of_mem _ hp)
  · intro r hr
    exact List.mem_append_left _ (List.mem_map_of_mem _ hr)

/-- Witness for C3 at a concrete post. -/
theorem sitemap_c3_witness :
    SitemapEntry.mk ("https://e" ++ "/" ++ wPostA.slug) (Date.toIso wPostA.publishedAt) ∈
      sitemap "https://e" "2025-03-04" [wPostA] :=
  (sitemap_c3 "https://e" "2025-03-04" [wPostA]).2.1 wPostA (by decide)

/-- C10: the sitemap places its single static-route entry (url exactly the
base URL) before all blog entries, and the blog entries appear in the same
relative order as the posts returned by `getBlogPosts`. -/
theorem sitemap_c10 (dir : List (String × String)) (baseUrl today : String) (posts : List Post)
    (_hposts : getBlogPosts dir = .ok posts) :
    sitemap baseUrl today posts =
      SitemapEntry.mk baseUrl today ::
        posts.map (fun p => SitemapEntry.mk (baseUrl ++ "/" ++ p.slug) (Date.toIso p.publishedAt)) := by
  unfold sitemap staticRoutes
  simp [String.append_empty]

/-- Witness for C10 at a concrete indexed directory. -/
theorem sitemap_c10_witness :
    sitemap "https://e" "2025-03-04" [wPostB, wPostA] =
      SitemapEntry.mk "https://e" "2025-03-04" ::
        ([wPostB, wPostA] : List Post).map
          (fun p => SitemapEntry.mk ("https://e" ++ "/" ++ p.slug) (Date.toIso p.publishedAt)) :=
  sitemap_c10 wDir "https://e" "2025-03-04" [wPostB, wPostA] (by rfl)

/-- C6 (amended): a file whose first line is not `---` fails with
`frontmatterDelimiter`; a file whose opening `---` is never closed also
fails with `frontmatterDelimiter` provided every line of the unclosed block
is blank or a well-formed field line with pairwise distinct keys (otherwise
a line or duplicate-key error preempts).  The parser is a total function,
so it terminates on every input. -/
theorem parse_c6 (t : String) (lines : List String) (hsplit : splitLines t = lines) :
    ((lines.head? ≠ some "---") → parseFrontmatter t = .error .frontmatterDelimiter) ∧
      (∀ rest, lines = "---" :: rest → "---" ∉ rest →
        (∀ l ∈ rest, strTrim l = "" ∨ (parseFieldLine l).isSome) →
        ((rest.filterMap parseFieldLine).map Prod.fst).Nodup →
        parseFrontmatter t = .error .frontmatterDelimiter) := by
  constructor
  · intro hhead
    unfold parseFrontmatter
    rw [hsplit]
    cases lines with
    | nil => rfl
    | cons l ls =>
      have hl : l ≠ "---" := by
        intro h
        exact hhead (by rw [h]; rfl)
      split
      · rename_i heq
        cases heq
        exact absurd rfl hl
      · rfl
  · intro rest hrest hnd hcl hnodup
    unfold parseFrontmatter
    rw [hsplit, hrest]
    apply parseBlock_noclose rest [] hnd hcl
    · intro k _
      simp
    · exact hnodup

/-- Witness for C6: a file with no opening delimiter and a file with an
unclosed well-formed block. -/
theorem parse_c6_witness :
    parseFrontmatter "x" = .error .frontmatterDelimiter ∧
      parseFrontmatter "---\nk: v" = .error .frontmatterDelimiter :=
  ⟨(parse_c6 "x" ["x"] (by rfl)).1 (by decide),
   (parse_c6 "---\nk: v" ["---", "k: v"] (by rfl)).2 ["k: v"] (by rfl) (by decide)
     (by decide) (by decide)⟩

/-- Counterexample to C6 as stated: `"---\nbad"` lacks a closing `---`, yet
the parser fails with `frontmatterLine "bad"`, not `frontmatterDelimiter`. -/
theorem parse_c6_counterexample :
    splitLines "---\nbad" = ["---", "bad"] ∧
      ("---" : String) ∉ (["bad"] : List String) ∧
      parseFrontmatter "---\nbad" = .error (.frontmatterLine "bad") ∧
      BlogError.frontmatterLine "bad" ≠ BlogError.frontmatterDelimiter :=
  ⟨rfl, by decide, rfl, by decide⟩

/-- C8 (amended): whenever parsing succeeds the returned mapping's keys are
unique within the block; and a well-delimited block all of whose lines are
blank or well-formed field lines, with some key on two lines, makes the
parser fail with `duplicateKey` (a malformed line in the block would preempt
with `frontmatterLine`). -/
theorem parse_c8 :
    (∀ t fm body, parseFrontmatter t = .ok (fm, body) → (fm.map Prod.fst).Nodup) ∧
      (∀ t block after, splitLines t = "---" :: (block ++ "---" :: after) →
        "---" ∉ block →
        (∀ l ∈ block, strTrim l = "" ∨ (parseFieldLine l).isSome) →
        ¬ ((block.filterMap parseFieldLine).map Prod.fst).Nodup →
        isDupKeyError (parseFrontmatter t)) := by
  constructor
  · intro t fm body h
    unfold parseFrontmatter at h
    split at h
    · exact parseBlock_ok_nodup _ _ h (by simp)
    · cases h
  · intro t block after hsplit hnd hcl hdup
    unfold parseFrontmatter
    rw [hsplit]
    obtain ⟨k, hk⟩ := parseBlock_dup block after [] hnd hcl (by simp) (by simpa using hdup)
    exact ⟨k, hk⟩

/-- Witness for C8: a successful parse with unique keys, and a duplicate-key
failure. -/
theorem parse_c8_witness :
    (([("k", "v")] : List (String × String)).map Prod.fst).Nodup ∧
      isDupKeyError (parseFrontmatter "---\na: 1\na: 2\n---") :=
  ⟨parse_c8.1 "---\nk: v\n---\nbody" [("k", "v")] "body" (by rfl),
   parse_c8.2 "---\na: 1\na: 2\n---" ["a: 1", "a: 2"] [] (by rfl) (by decide)
     (by decide) (by decide)⟩

/-- Counterexample to C8 as stated: the block of this file contains
`title` on two lines, yet the parser fails with `frontmatterLine "bad"`,
not `duplicateKey`. -/
theorem parse_c8_counterexample :
    splitLines "---\ntitle: a\nbad\ntitle: b\n---" =
        ["---", "title: a", "bad", "title: b", "---"] ∧
      parseFieldLine "title: a" = some ("title", "a") ∧
      parseFieldLine "title: b" = some ("title", "b") ∧
      parseFrontmatter "---\ntitle: a\nbad\ntitle: b\n---" = .error (.frontmatterLine "bad") ∧
      BlogError.frontmatterLine "bad" ≠ BlogError.duplicateKey "title" :=
  ⟨rfl, rfl, rfl, rfl, by decide⟩

/-- C7: the metadata coercer fails — with an error naming the offending key
and the source file — if and only if a required key (`title`, `publishedAt`,
`summary`) is absent, `publishedAt` does not parse as a calendar date, or a
required value is empty after trimming; and on success every field is taken
verbatim from the mapping, never defaulted. -/
theorem coerce_c7 (file : String) (fm : List (String × String)) :
    (coerceFails (coerce file fm) ↔
      ((getField fm "title" = none ∨ getField fm "publishedAt" = none ∨
          getField fm "summary" = none) ∨
        (∃ v, getField fm "publishedAt" = some v ∧ parseDate v = none) ∨
        (∃ k v, (k = "title" ∨ k = "publishedAt" ∨ k = "summary") ∧
          getField fm k = some v ∧ strTrim v = ""))) ∧
      (∀ e, coerce file fm = .error e → e.file = file) ∧
      (∀ md, coerce file fm = .ok md →
        getField fm "title" = some md.title ∧
        getField fm "summary" = some md.summary ∧
        (getField fm "publishedAt").bind parseDate = some md.publishedAt ∧
        md.image = getField fm "image") := by
  rcases htO : getField fm "title" with _ | title
  · have hc : coerce file fm = .error ⟨file, .missingField "title"⟩ := by
      simp [coerce, htO]
    refine ⟨iff_of_true ⟨_, hc⟩ (Or.inl (Or.inl rfl)), ?_, ?_⟩
    · intro e he; rw [hc] at he; cases he; rfl
    · intro md h; rw [hc] at h; cases h
  · by_cases hte : strTrim title = ""
    · have hc : coerce file fm = .error ⟨file, .missingField "title"⟩ := by
        simp [coerce, htO, hte]
      refine ⟨iff_of_true ⟨_, hc⟩
        (Or.inr (Or.inr ⟨"title", title, Or.inl rfl, htO, hte⟩)), ?_, ?_⟩
      · intro e he; rw [hc] at he; cases he; rfl
      · intro md h; rw [hc] at h; cases h
    · rcases hpO : getField fm "publishedAt" with _ | pub
      · have hc : coerce file fm = .error ⟨file, .missingField "publishedAt"⟩ := by
          simp [coerce, htO, hte, hpO]
        refine ⟨iff_of_true ⟨_, hc⟩ (Or.inl (Or.inr (Or.inl rfl))), ?_, ?_⟩
        · intro e he; rw [hc] at he; cases he; rfl
        · intro md h; rw [hc] at h; cases h
      · by_cases hpe : strTrim pub = ""
        · have hc : coerce file fm = .error ⟨file, .missingField "publishedAt"⟩ := by
            simp [coerce, htO, hte, hpO, hpe]
          refine ⟨iff_of_true ⟨_, hc⟩
            (Or.inr (Or.inr ⟨"publishedAt", pub, Or.inr (Or.inl rfl), hpO, hpe⟩)), ?_, ?_⟩
          · intro e he; rw [hc] at he; cases he; rfl
          · intro md h; rw [hc] at h; cases h
        · rcases hpd : parseDate pub with _ | d
          · have hc : coerce file fm = .error ⟨file, .invalidDate pub⟩ := by
              simp [coerce, htO, hte, hpO, hpe, hpd]
            refine ⟨iff_of_true ⟨_, hc⟩ (Or.inr (Or.inl ⟨pub, rfl, hpd⟩)), ?_, ?_⟩
            · intro e he; rw [hc] at he; cases he; rfl
            · intro md h; rw [hc] at h; cases h
          · rcases hsO : getField fm "summary" with _ | summary
            · have hc : coerce file fm = .error ⟨file, .missingField "summary"⟩ := by
                simp [coerce, htO, hte, hpO, hpe, hpd, hsO]
              refine ⟨iff_of_true ⟨_, hc⟩ (Or.inl (Or.inr (Or.inr rfl))), ?_, ?_⟩
              · intro e he; rw [hc] at he; cases he; rfl
              · intro md h; rw [hc] at h; cases h
            · by_cases hse : strTrim summary = ""
              · have hc : coerce file fm = .error ⟨file, .missingField "summary"⟩ := by
                  simp [coerce, htO, hte, hpO, hpe, hpd, hsO, hse]
                refine ⟨iff_of_true ⟨_, hc⟩
                  (Or.inr (Or.inr ⟨"summary", summary, Or.inr (Or.inr rfl), hsO, hse⟩)), ?_, ?_⟩
                · intro e he; rw [hc] at he; cases he; rfl
                · intro md h; rw [hc] at h; cases h
              · have hc : coerce file fm = .ok ⟨title, d, summary, getField fm "image"⟩ := by
                  simp [coerce, htO, hte, hpO, hpe, hpd, hsO, hse]
                refine ⟨iff_of_false ?_ ?_, ?_, ?_⟩
                · rintro ⟨e, he⟩; rw [hc] at he; cases he
                · rintro ((h | h | h) | ⟨v, hv, hpd'⟩ | ⟨k, v, hk, hkv, hve⟩)
                  · cases h
                  · cases h
                  · cases h
                  · cases hv; rw [hpd] at hpd'; cases hpd'
                  · rcases hk with rfl | rfl | rfl
                    · rw [htO] at hkv; cases hkv; exact hte hve
                    · rw [hpO] at hkv; cases hkv; exact hpe hve
                    · rw [hsO] at hkv; cases hkv; exact hse hve
                · intro e he; rw [hc] at he; cases he
                · intro md h
                  rw [hc] at h
                  cases h
                  exact ⟨rfl, rfl, by simpa using hpd, rfl⟩

/-- Witness for C7: an empty mapping fails, and a complete mapping's title
is passed through unchanged. -/
theorem coerce_c7_witness :
    coerceFails (coerce "f.mdx" []) ∧
      getField [("title", "T"), ("publishedAt", "2025-01-02"), ("summary", "S")] "title" =
        some (PostMeta.mk "T" ⟨2025, 1, 2⟩ "S" none).title :=
  ⟨(coerce_c7 "f.mdx" []).1.mpr (Or.inl (Or.inl rfl)),
   ((coerce_c7 "f.mdx" [("title", "T"), ("publishedAt", "2025-01-02"), ("summary", "S")]).2.2
     (PostMeta.mk "T" ⟨2025, 1, 2⟩ "S" none) (by rfl)).1⟩
